import Mathlib

/-!
Verification of the feddit-analyzer comment aggregation and sentiment pipeline.

The definitions below are a shallow embedding of the Python sources:
  feddit_analyzer/api/_core.py            (get_subfeddit_id, analyze_comments_sentiment,
                                           _get_all_comments)
  feddit_analyzer/api/_schemas.py         (CommentSentiment, no_more_than_25_comments)
  feddit_analyzer/sentiment_analysis/_analyzer.py (_compute_polarity, _process_outputs)
  feddit_analyzer/sentiment_analysis/schemas.py   (SentimentScore, _validate_required_labels)
  feddit_analyzer/sentiment_analysis/sentiment.py (Sentiment.from_polarity)
  feddit_analyzer/feddit_client/schemas.py        (CommentInfo, SubfedditInfo)

Numeric scores and polarities are modelled by exact rationals.  Python exceptions are
modelled by the error side of an Except value.  Python's stable in-place list.sort with
a key and reverse=True is modelled by List.insertionSort with the corresponding total,
transitive relation (insertion sort with a total preorder is the stable sort).
-/

namespace FedditAnalyzer

/-- CommentInfo from feddit_client/schemas.py: id, username, text, created_at
(Unix epoch seconds). -/
structure CommentInfo where
  id : Int
  username : String
  text : String
  created_at : Int
  deriving DecidableEq, Repr

/-- SubfedditInfo from feddit_client/schemas.py (the description field is irrelevant to
the analysed control flow and kept for faithfulness). -/
structure Subfeddit where
  id : Int
  username : String
  title : String
  description : String
  deriving DecidableEq, Repr

/-- Sentiment from sentiment_analysis/sentiment.py: a two-valued enumeration. -/
inductive Sentiment where
  | positive
  | negative
  deriving DecidableEq, Repr

/-- SentimentScore from sentiment_analysis/schemas.py: one label with its score. -/
structure SentimentScore where
  label : String
  score : ℚ
  deriving DecidableEq, Repr

/-- SentimentAnalysis from sentiment_analysis/schemas.py: the per-statement output of the
analyzer. -/
structure SentimentAnalysisResult where
  statement : String
  polarity : ℚ
  sentiment : Sentiment
  deriving DecidableEq, Repr

/-- CommentSentiment from api/_schemas.py: the externally visible result unit. -/
structure CommentSentiment where
  comment_id : Int
  comment : String
  polarity : ℚ
  classification : Sentiment
  deriving DecidableEq, Repr

/-- Python exceptions raised (or named) around the analysed code.  The constructors
zeroDivisionError, invalidPolarityError, validationError and httpNotFound correspond to
exceptions the source actually raises.  Modelled from the spec: degenerateScoreError,
missingLabelError and responseMismatchError are error kinds named only by the spec
(DegenerateScoreError, MissingLabelError, ResponseMismatchError); no class of these names
exists anywhere in the repository, and the constructors exist only so that claims naming
them can be stated. -/
inductive PyErr where
  | zeroDivisionError
  | invalidPolarityError (polarity : ℚ)
  | validationError
  | httpNotFound (title : String)
  | degenerateScoreError
  | missingLabelError
  | responseMismatchError
  deriving DecidableEq, Repr

/-- The threshold _POL_TH = 0 of sentiment.py. -/
def _POL_TH : ℚ := 0

/-- Sentiment.from_polarity of sentiment.py: raise InvalidPolarityError (carrying the
value) unless -1 <= polarity <= 1, then POSITIVE iff polarity >= _POL_TH. -/
def Sentiment.from_polarity (polarity : ℚ) : Except PyErr Sentiment :=
  if ¬ (-1 ≤ polarity ∧ polarity ≤ 1) then
    .error (.invalidPolarityError polarity)
  else
    .ok (if _POL_TH ≤ polarity then .positive else .negative)

/-- The function _compute_polarity of _analyzer.py: the bare division
(positive - negative) / (positive + neutral + negative).  Python float division raises
ZeroDivisionError exactly when the denominator is zero; that exception is the error
case here.  There is no explicit zero handling in the source. -/
def _compute_polarity (positive neutral negative : ℚ) : Except PyErr ℚ :=
  if positive + neutral + negative = 0 then
    .error .zeroDivisionError
  else
    .ok ((positive - negative) / (positive + neutral + negative))

/-- The constant _NLABELS = 3 of sentiment_analysis/schemas.py. -/
def _NLABELS : Nat := 3

/-- The three required labels of _validate_required_labels. -/
def requiredLabels : List String := ["positive", "negative", "neutral"]

/-- The per-statement condition checked by _validate_required_labels of
sentiment_analysis/schemas.py: the list has exactly _NLABELS entries and its set of
labels equals the set of the three required labels (set equality rendered as two-way
containment). -/
def hasRequiredLabels (scores : List SentimentScore) : Bool :=
  scores.length == _NLABELS &&
    requiredLabels.all (fun l => (scores.map SentimentScore.label).contains l) &&
    (scores.map SentimentScore.label).all (fun l => requiredLabels.contains l)

/-- The validator _validate_required_labels of sentiment_analysis/schemas.py: raise a
ValidationError as soon as one statement's scores fail the label check, otherwise return
the outputs unchanged.  The raise statement in the source names pydantic's
ValidationError; no MissingLabelError class exists in the repository. -/
def _validate_required_labels (outputs : List (List SentimentScore)) :
    Except PyErr (List (List SentimentScore)) :=
  if outputs.all hasRequiredLabels then .ok outputs else .error .validationError

/-- The constant _QUERY_LIMIT = 25 of api/_core.py. -/
def _QUERY_LIMIT : Nat := 25

/-- The inclusive time-range filter of _get_all_comments: a comment survives when
min_datetime is None or created_at is at least it, and max_datetime is None or
created_at is at most it. -/
def matchesFilter (min_datetime max_datetime : Option Int) (c : CommentInfo) : Bool :=
  min_datetime.all (fun m => decide (m ≤ c.created_at)) &&
    max_datetime.all (fun m => decide (c.created_at ≤ m))

/-- The sort key of the merge loop: comments.sort with key created_at and reverse=True,
i.e. newest first.  The relation holds when a may come no later than b in the descending
order. -/
def commentOrder (a b : CommentInfo) : Prop := b.created_at ≤ a.created_at

instance : DecidableRel commentOrder := fun a b =>
  inferInstanceAs (Decidable (b.created_at ≤ a.created_at))

instance : IsTotal CommentInfo commentOrder :=
  ⟨fun a b => le_total b.created_at a.created_at⟩

instance : IsTrans CommentInfo commentOrder :=
  ⟨fun _ _ _ h1 h2 => le_trans h2 h1⟩

/-- The loop of _get_all_comments of api/_core.py, with the successive client batches
made explicit: each iteration filters the fetched batch by the time range, extends the
accumulator, stable-sorts it descending by created_at and truncates to _QUERY_LIMIT.
The loop ends after the first batch shorter than _QUERY_BATCH_SIZE; the batches list
is exactly the sequence of batches the client returned until that point, so the loop
visits them in order and stops after the last. -/
def _get_all_comments (min_datetime max_datetime : Option Int)
    (batches : List (List CommentInfo)) : List CommentInfo :=
  batches.foldl
    (fun comments batch =>
      ((comments ++ batch.filter (matchesFilter min_datetime max_datetime)).insertionSort
          commentOrder).take _QUERY_LIMIT)
    []

/-- The sort key of the optional final sort: responses.sort with key polarity and
reverse=True. -/
def polarityOrder (a b : CommentSentiment) : Prop := b.polarity ≤ a.polarity

instance : DecidableRel polarityOrder := fun a b =>
  inferInstanceAs (Decidable (b.polarity ≤ a.polarity))

/-- The orchestrator analyze_comments_sentiment of api/_core.py.  The comment source is
given as the list of batches its paginated fetch returns; the sentiment scorer is the
function analyze_sentiment of the SentimentAnalyzer (an HTTP collaborator, so it may
fail with any error).  Comments and scorer results are combined positionally by
zip(..., strict=False), which stops at the shorter of the two lists. -/
def analyze_comments_sentiment (min_datetime max_datetime : Option Int)
    (sort_by_polarity : Bool) (batches : List (List CommentInfo))
    (analyze_sentiment : List String → Except PyErr (List SentimentAnalysisResult)) :
    Except PyErr (List CommentSentiment) :=
  let comments := _get_all_comments min_datetime max_datetime batches
  if comments.isEmpty then .ok []
  else
    match analyze_sentiment (comments.map CommentInfo.text) with
    | .error e => .error e
    | .ok comments_sentiment =>
      let responses := (comments.zip comments_sentiment).map fun cs =>
        ⟨cs.1.id, cs.1.text, cs.2.polarity, cs.2.sentiment⟩
      .ok (if sort_by_polarity then responses.insertionSort polarityOrder else responses)

/-- The process-wide subfeddit_cache of api/_core.py, abstracted to its lookup map.
The concrete store is a cachetools TTLCache with a size bound and a TTL; eviction and
expiry are that external collaborator's concern, so only the lookups, insertions and
deletions performed by the analysed code are modelled. -/
abbrev TitleCache : Type := String → Option Int

/-- Model of the assignment subfeddit_cache key-assignment: map update at one key. -/
def cacheSet (cache : TitleCache) (title : String) (id : Int) : TitleCache :=
  fun t => if t = title then some id else cache t

/-- Model of del subfeddit_cache at a key. -/
def cacheDel (cache : TitleCache) (title : String) : TitleCache :=
  fun t => if t = title then none else cache t

/-- The inner for-loop of the full search in get_subfeddit_id: walk one batch, cache
every (title, id) pair as it is visited, and return the id as soon as the title matches
(entries after the match in the batch are not visited).  The left result is the updated
cache after a batch with no match. -/
def scanBatch (subfeddit_title : String) :
    TitleCache → List Subfeddit → TitleCache ⊕ (Int × TitleCache)
  | cache, [] => .inl cache
  | cache, sf :: rest =>
    let cache' := cacheSet cache sf.title sf.id
    if sf.title = subfeddit_title then .inr (sf.id, cache')
    else scanBatch subfeddit_title cache' rest

/-- The while-loop of the full search in get_subfeddit_id over the successive batches
returned by get_subfeddits; when the batches are exhausted without a match the
HTTPException with status 404 is raised, with the cache in whatever state the scans
left it. -/
def searchLoop (subfeddit_title : String) :
    TitleCache → List (List Subfeddit) → Except PyErr Int × TitleCache
  | cache, [] => (.error (.httpNotFound subfeddit_title), cache)
  | cache, batch :: rest =>
    match scanBatch subfeddit_title cache batch with
    | .inr (id, cache') => (.ok id, cache')
    | .inl cache' => searchLoop subfeddit_title cache' rest

/-- The function get_subfeddit_id of api/_core.py.  The revalidation call
get_subfeddit_info on a cached id is abstracted by the predicate infoOk (false models
the NotFoundError branch); batches is the sequence of subfeddit pages the client
returns during the full search.  The result pairs the returned id (or raised error)
with the final cache state. -/
def get_subfeddit_id (subfeddit_title : String) (cache : TitleCache)
    (infoOk : Int → Bool) (batches : List (List Subfeddit)) :
    Except PyErr Int × TitleCache :=
  match cache subfeddit_title with
  | some cached_id =>
    if infoOk cached_id then (.ok cached_id, cache)
    else searchLoop subfeddit_title (cacheDel cache subfeddit_title) batches
  | none => searchLoop subfeddit_title cache batches

/-- The constant _MAX_COMMENTS = 25 of api/_schemas.py. -/
def _MAX_COMMENTS : Nat := 25

/-- The validator no_more_than_25_comments of api/_schemas.py: raise a ValueError when
more than _MAX_COMMENTS comments are present. -/
def no_more_than_25_comments (value : List CommentSentiment) :
    Except PyErr (List CommentSentiment) :=
  if value.length > _MAX_COMMENTS then .error .validationError else .ok value

section StableSortTopK

/-!
Generic facts about List.insertionSort with a total, transitive relation (the model of
Python's stable list.sort) and about the top-k window take k after sorting: the
sort-then-truncate merge step of _get_all_comments is invariant under chunking.
-/

open List

variable {α : Type} (r : α → α → Prop) [DecidableRel r]

/-- Sorting an append equals folding ordered insertions of the left part into the sorted
right part. -/
theorem insertionSort_append (A B : List α) :
    insertionSort r (A ++ B) = A.foldr (orderedInsert r) (insertionSort r B) := by
  induction A with
  | nil => rfl
  | cons a A ih => simp [List.insertionSort, ih]

/-- Truncating after consing commutes with pre-truncating the tail. -/
theorem take_cons_take (k : Nat) (y : α) (t : List α) :
    (y :: t.take k).take k = (y :: t).take k := by
  cases k with
  | zero => rfl
  | succ m =>
    simp only [List.take_succ_cons, List.take_take]
    rw [Nat.min_eq_left (Nat.le_succ m)]

/-- The first k entries after an ordered insertion depend only on the first k entries of
the target list. -/
theorem take_orderedInsert (k : Nat) (x : α) (l : List α) :
    (orderedInsert r x l).take k = (orderedInsert r x (l.take k)).take k := by
  induction l generalizing k with
  | nil => simp
  | cons y t ih =>
    cases k with
    | zero => simp
    | succ m =>
      by_cases h : r x y
      · simp only [List.orderedInsert, if_pos h, List.take_succ_cons]
        rw [take_cons_take]
      · simp only [List.orderedInsert, if_neg h, List.take_succ_cons,
          List.orderedInsert]
        rw [ih m]

/-- Ordered insertions of two elements commute when the later-inserted one does not
precede the earlier one. -/
theorem orderedInsert_comm [IsTotal α r] [IsTrans α r] {a s : α} (h : ¬ r a s)
    (X : List α) :
    orderedInsert r s (orderedInsert r a X) = orderedInsert r a (orderedInsert r s X) := by
  have hsa : r s a := (total_of r a s).resolve_left h
  induction X with
  | nil => simp [List.orderedInsert, h, hsa]
  | cons x X ih =>
    by_cases hax : r a x
    · have hsx : r s x := trans_of r hsa hax
      simp [List.orderedInsert, hax, hsx, h, hsa]
    · by_cases hsx : r s x
      · simp [List.orderedInsert, hax, hsx, h]
      · simp [List.orderedInsert, hax, hsx, ih]

/-- Sorting after an ordered insertion equals inserting into the sorted rest: the ordered
insertion is compatible with the stable sort. -/
theorem insertionSort_orderedInsert_append [IsTotal α r] [IsTrans α r] (a : α)
    (S B : List α) :
    insertionSort r (orderedInsert r a S ++ B)
      = orderedInsert r a (insertionSort r (S ++ B)) := by
  induction S with
  | nil => rfl
  | cons s S ih =>
    by_cases has : r a s
    · simp [List.orderedInsert, has]
    · simp only [List.orderedInsert, if_neg has, List.cons_append, List.insertionSort, ih]
      exact orderedInsert_comm r has _

/-- Inserting into a sorted list splits it around the inserted element, with everything
after it related from it. -/
theorem orderedInsert_decomp [IsTrans α r] (c : α) :
    ∀ {X : List α}, X.Sorted r →
      ∃ X₁ X₂, orderedInsert r c X = X₁ ++ c :: X₂ ∧ X = X₁ ++ X₂ ∧ ∀ y ∈ X₂, r c y := by
  intro X hX
  induction X with
  | nil => exact ⟨[], [], rfl, rfl, by simp⟩
  | cons x X ih =>
    by_cases hcx : r c x
    · refine ⟨[], x :: X, by simp [List.orderedInsert, hcx], rfl, ?_⟩
      intro y hy
      rcases List.mem_cons.mp hy with rfl | hy
      · exact hcx
      · exact trans_of r hcx (List.rel_of_sorted_cons hX _ hy)
    · obtain ⟨X₁, X₂, h1, h2, h3⟩ := ih hX.of_cons
      exact ⟨x :: X₁, X₂, by simp [List.orderedInsert, hcx, h1], by simp [h2], h3⟩

/-- Inserting an element that precedes a pivot c lands strictly before the pivot, grows
the prefix by exactly one, and agrees with the insertion into the list without the
pivot. -/
theorem orderedInsert_before_pivot [IsTrans α r] {x c : α} (hxc : r x c) {Y₂ : List α}
    (h2 : ∀ y ∈ Y₂, r c y) :
    ∀ Y₁ : List α, ∃ Z₁, orderedInsert r x (Y₁ ++ c :: Y₂) = Z₁ ++ c :: Y₂ ∧
      Z₁.length = Y₁.length + 1 ∧ Z₁ ++ Y₂ = orderedInsert r x (Y₁ ++ Y₂) := by
  intro Y₁
  induction Y₁ with
  | nil =>
    refine ⟨[x], by simp [List.orderedInsert, hxc], by simp, ?_⟩
    cases Y₂ with
    | nil => simp
    | cons y Y₂ =>
      have hxy : r x y := trans_of r hxc (h2 y (by simp))
      simp [List.orderedInsert, hxy]
  | cons y Y₁ ih =>
    by_cases hxy : r x y
    · exact ⟨x :: y :: Y₁, by simp [List.orderedInsert, hxy], by simp,
        by simp [List.orderedInsert, hxy]⟩
    · obtain ⟨Z₁, h1, hlen, heq⟩ := ih
      refine ⟨y :: Z₁, ?_, by simp [hlen], ?_⟩
      · simp [List.orderedInsert, hxy, h1]
      · simp [List.orderedInsert, hxy, heq]

/-- Folding insertions of elements that all precede a pivot keeps the pivot's suffix
fixed, pushes the pivot's position past the number of insertions, and agrees with the
fold into the list without the pivot. -/
theorem foldr_orderedInsert_pivot [IsTrans α r] {c : α} {Y₂ : List α}
    (h2 : ∀ y ∈ Y₂, r c y) {P : List α} (hP : ∀ p ∈ P, r p c) (Y₁ : List α) :
    ∃ Z₁, P.foldr (orderedInsert r) (Y₁ ++ c :: Y₂) = Z₁ ++ c :: Y₂ ∧
      Z₁.length = Y₁.length + P.length ∧
      Z₁ ++ Y₂ = P.foldr (orderedInsert r) (Y₁ ++ Y₂) := by
  induction P with
  | nil => exact ⟨Y₁, rfl, by simp, rfl⟩
  | cons p P ih =>
    obtain ⟨Z₁, h1, hlen, heq⟩ := ih (fun q hq => hP q (List.mem_cons_of_mem _ hq))
    have hpc : r p c := hP p (List.mem_cons_self _ _)
    obtain ⟨W₁, w1, wlen, weq⟩ := orderedInsert_before_pivot r hpc h2 Z₁
    refine ⟨W₁, ?_, ?_, ?_⟩
    · simpa [List.foldr_cons, h1] using w1
    · rw [wlen, hlen]
      simp [List.length_cons]
      omega
    · rw [weq, heq]
      rfl

/-- The key merge-step identity: truncating the sorted left part to its top k before
appending and re-sorting does not change the top k of the whole. -/
theorem take_insertionSort_take [IsTotal α r] [IsTrans α r] (k : Nat) (A B : List α) :
    (insertionSort r ((insertionSort r A).take k ++ B)).take k
      = (insertionSort r (A ++ B)).take k := by
  induction A generalizing B with
  | nil => simp
  | cons a A ih =>
    have hrhs : (insertionSort r ((a :: A) ++ B)).take k
        = (insertionSort r ((a :: (insertionSort r A).take k) ++ B)).take k := by
      calc (insertionSort r ((a :: A) ++ B)).take k
          = (orderedInsert r a (insertionSort r (A ++ B))).take k := by
            simp [List.insertionSort]
        _ = (orderedInsert r a ((insertionSort r (A ++ B)).take k)).take k :=
            take_orderedInsert r k a _
        _ = (orderedInsert r a
              ((insertionSort r ((insertionSort r A).take k ++ B)).take k)).take k := by
            rw [ih]
        _ = (orderedInsert r a
              (insertionSort r ((insertionSort r A).take k ++ B))).take k :=
            (take_orderedInsert r k a _).symm
        _ = (insertionSort r ((a :: (insertionSort r A).take k) ++ B)).take k := by
            simp [List.insertionSort]
    rw [hrhs]
    have hS : ((insertionSort r A).take k).Sorted r :=
      (List.sorted_insertionSort r A).sublist (List.take_sublist _ _)
    set S := (insertionSort r A).take k with hSdef
    have hlhs : (insertionSort r ((insertionSort r (a :: A)).take k ++ B)).take k
        = (insertionSort r ((orderedInsert r a S).take k ++ B)).take k := by
      have : (insertionSort r (a :: A)).take k = (orderedInsert r a S).take k := by
        simp only [List.insertionSort, hSdef]
        exact take_orderedInsert r k a _
      rw [this]
    rw [hlhs]
    by_cases hk : (orderedInsert r a S).length ≤ k
    · rw [List.take_of_length_le hk]
      have h1 : insertionSort r (orderedInsert r a S ++ B)
          = orderedInsert r a (insertionSort r (S ++ B)) :=
        insertionSort_orderedInsert_append r a S B
      have h2 : insertionSort r ((a :: S) ++ B)
          = orderedInsert r a (insertionSort r (S ++ B)) := by
        simp [List.insertionSort]
      rw [h1, ← h2]
    · -- overflow case: the ordered insertion has length k + 1 and its last element is
      -- dropped by the truncation; that element never enters the final top k.
      have hSlen : S.length ≤ k := by
        simp [hSdef]
      have hlen : (orderedInsert r a S).length = k + 1 := by
        rw [List.orderedInsert_length] at hk ⊢
        omega
      have hsorted : (orderedInsert r a S).Sorted r := hS.orderedInsert a S
      obtain ⟨c, hc⟩ : ∃ c, (orderedInsert r a S).drop k = [c] := by
        apply List.length_eq_one.mp
        rw [List.length_drop, hlen]
        omega
      have hsplit : orderedInsert r a S = (orderedInsert r a S).take k ++ [c] := by
        conv_lhs => rw [← List.take_append_drop k (orderedInsert r a S), hc]
      set P := (orderedInsert r a S).take k with hPdef
      have hPlen : P.length = k := by
        rw [hPdef, List.length_take, hlen]
        omega
      have hPc : ∀ p ∈ P, r p c := by
        have := hsorted
        rw [hsplit] at this
        have h := (List.pairwise_append.mp this).2.2
        intro p hp
        exact h p hp c (by simp)
      -- the right-hand side re-expressed through the pivot c behind P
      have hr : insertionSort r ((a :: S) ++ B) = insertionSort r (P ++ (c :: B)) := by
        have h2 : insertionSort r ((a :: S) ++ B)
            = orderedInsert r a (insertionSort r (S ++ B)) := by
          simp [List.insertionSort]
        rw [h2, ← insertionSort_orderedInsert_append r a S B]
        conv_lhs => rw [hsplit]
        simp
      rw [hr]
      rw [insertionSort_append r P B, insertionSort_append r P (c :: B)]
      have hcB : insertionSort r (c :: B) = orderedInsert r c (insertionSort r B) := by
        simp [List.insertionSort]
      rw [hcB]
      obtain ⟨X₁, X₂, hx1, hx2, hx3⟩ :=
        orderedInsert_decomp r c (List.sorted_insertionSort r B)
      rw [hx1]
      obtain ⟨Z₁, hz1, hzlen, hzeq⟩ := foldr_orderedInsert_pivot r hx3 hPc X₁
      rw [hz1]
      have hkZ : k ≤ Z₁.length := by
        rw [hzlen, hPlen]
        omega
      rw [List.take_append_of_le_length hkZ]
      have : P.foldr (orderedInsert r) (insertionSort r B)
          = P.foldr (orderedInsert r) (X₁ ++ X₂) := by rw [← hx2]
      rw [this, ← hzeq, List.take_append_of_le_length hkZ]

/-- A fold of the sort-then-truncate merge step equals one sort-then-truncate of the
whole filtered input: the closed form of the bounded merge loop. -/
theorem foldl_sortTake_eq [IsTotal α r] [IsTrans α r] (k : Nat) (q : α → Bool)
    (batches : List (List α)) (C : List α) :
    batches.foldl (fun acc b => (insertionSort r (acc ++ b.filter q)).take k)
        ((insertionSort r C).take k)
      = (insertionSort r (C ++ batches.flatten.filter q)).take k := by
  induction batches generalizing C with
  | nil => simp
  | cons b bs ih =>
    rw [List.foldl_cons, take_insertionSort_take r k C (b.filter q), ih (C ++ b.filter q)]
    simp [List.filter_append, List.append_assoc]

end StableSortTopK

/-- Closed form of the bounded merge: the final window is the top _QUERY_LIMIT of the
stable descending sort of all qualifying comments, in fetch order within ties. -/
theorem get_all_comments_eq (min_datetime max_datetime : Option Int)
    (batches : List (List CommentInfo)) :
    _get_all_comments min_datetime max_datetime batches
      = ((batches.flatten.filter (matchesFilter min_datetime max_datetime)).insertionSort
          commentOrder).take _QUERY_LIMIT := by
  have h := foldl_sortTake_eq commentOrder _QUERY_LIMIT
    (matchesFilter min_datetime max_datetime) batches []
  simpa [_get_all_comments] using h

/-- Scanning a batch that does not contain the searched title caches every pair of the
batch and reports no match. -/
theorem scanBatch_not_found (t : String) (cache : TitleCache) (batch : List Subfeddit)
    (h : ∀ sf ∈ batch, sf.title ≠ t) :
    scanBatch t cache batch
      = .inl (batch.foldl (fun c sf => cacheSet c sf.title sf.id) cache) := by
  induction batch generalizing cache with
  | nil => rfl
  | cons sf rest ih =>
    have hsf : sf.title ≠ t := h sf (List.mem_cons_self _ _)
    simp only [scanBatch, if_neg hsf, List.foldl_cons]
    exact ih _ fun x hx => h x (List.mem_cons_of_mem _ hx)

/-- A failed full search raises the 404 error and leaves every visited pair inserted:
the final cache is the fold of all insertions over the concatenation of the batches. -/
theorem searchLoop_not_found (t : String) (cache : TitleCache)
    (batches : List (List Subfeddit)) (h : ∀ sf ∈ batches.flatten, sf.title ≠ t) :
    searchLoop t cache batches
      = (.error (.httpNotFound t),
         batches.flatten.foldl (fun c sf => cacheSet c sf.title sf.id) cache) := by
  induction batches generalizing cache with
  | nil => rfl
  | cons batch rest ih =>
    have hb : ∀ sf ∈ batch, sf.title ≠ t := fun sf hsf =>
      h sf (by simp [List.mem_flatten]; exact Or.inl hsf)
    have hr : ∀ sf ∈ rest.flatten, sf.title ≠ t := fun sf hsf =>
      h sf (by simp [List.flatten_cons]; exact Or.inr (List.mem_flatten.mp hsf))
    simp only [searchLoop, scanBatch_not_found t cache batch hb, List.flatten_cons,
      List.foldl_append]
    exact ih _ hr

/-- Inserting pairs never removes an existing cache entry. -/
theorem foldl_cacheSet_isSome_mono (l : List Subfeddit) (cache : TitleCache)
    (t : String) (h : (cache t).isSome) :
    ((l.foldl (fun c sf => cacheSet c sf.title sf.id) cache) t).isSome := by
  induction l generalizing cache with
  | nil => exact h
  | cons sf rest ih =>
    refine ih _ ?_
    by_cases ht : t = sf.title
    · simp [cacheSet, ht]
    · simpa [cacheSet, ht] using h

/-- After folding all insertions of a list, every member's title resolves. -/
theorem foldl_cacheSet_mem_isSome (l : List Subfeddit) (cache : TitleCache)
    (sf : Subfeddit) (hsf : sf ∈ l) :
    ((l.foldl (fun c sf => cacheSet c sf.title sf.id) cache) sf.title).isSome := by
  induction l generalizing cache with
  | nil => cases hsf
  | cons x rest ih =>
    rcases List.mem_cons.mp hsf with rfl | hmem
    · exact foldl_cacheSet_isSome_mono rest _ _ (by simp [cacheSet])
    · exact ih _ hmem

/-- A list of strings drawn from the three required labels has length equal to the sum
of the three label counts. -/
theorem length_eq_counts (L : List String) (h : ∀ l ∈ L, l ∈ requiredLabels) :
    L.length = L.count "positive" + L.count "negative" + L.count "neutral" := by
  induction L with
  | nil => simp
  | cons a t ih =>
    have ha : a ∈ requiredLabels := h a (List.mem_cons_self _ _)
    have ht := ih fun l hl => h l (List.mem_cons_of_mem _ hl)
    have ha3 : a = "positive" ∨ a = "negative" ∨ a = "neutral" := by
      simpa [requiredLabels] using ha
    rcases ha3 with rfl | rfl | rfl <;>
      simp [List.count_cons, ht] <;> omega

/-- The condition of _validate_required_labels holds for one statement exactly when its
label list is a permutation of the three required labels, i.e. each of positive,
negative and neutral appears exactly once and nothing else appears. -/
theorem hasRequiredLabels_iff_perm (scores : List SentimentScore) :
    hasRequiredLabels scores = true
      ↔ (scores.map SentimentScore.label).Perm requiredLabels := by
  unfold hasRequiredLabels
  simp only [Bool.and_eq_true, beq_iff_eq, List.all_eq_true, List.elem_eq_mem,
    decide_eq_true_eq]
  constructor
  · rintro ⟨⟨hlen, hsup⟩, hsub⟩
    have hLlen : (scores.map SentimentScore.label).length = _NLABELS := by
      simpa using hlen
    set L := scores.map SentimentScore.label with hL
    have hsum : L.length = L.count "positive" + L.count "negative" + L.count "neutral" :=
      length_eq_counts L hsub
    have hpos : 0 < L.count "positive" :=
      List.count_pos_iff.mpr (hsup "positive" (by simp [requiredLabels]))
    have hneg : 0 < L.count "negative" :=
      List.count_pos_iff.mpr (hsup "negative" (by simp [requiredLabels]))
    have hneu : 0 < L.count "neutral" :=
      List.count_pos_iff.mpr (hsup "neutral" (by simp [requiredLabels]))
    have h3 : L.length = 3 := by simpa [_NLABELS] using hLlen
    refine List.perm_iff_count.mpr fun a => ?_
    by_cases hap : a = "positive"
    · subst hap
      have : L.count "positive" = 1 := by omega
      simp [this, requiredLabels]
    · by_cases han : a = "negative"
      · subst han
        have : L.count "negative" = 1 := by omega
        simp [this, requiredLabels, List.count_cons]
      · by_cases hau : a = "neutral"
        · subst hau
          have : L.count "neutral" = 1 := by omega
          simp [this, requiredLabels, List.count_cons]
        · have hnotL : a ∉ L := fun hmem => by
            have := hsub a hmem
            simp [requiredLabels] at this
            tauto
          have hnotR : a ∉ requiredLabels := by
            simp [requiredLabels]
            tauto
          rw [List.count_eq_zero.mpr hnotL, List.count_eq_zero.mpr hnotR]
  · intro hperm
    refine ⟨⟨?_, ?_⟩, ?_⟩
    · have := hperm.length_eq
      simpa [requiredLabels, _NLABELS] using this
    · exact fun l hl => hperm.mem_iff.mpr hl
    · exact fun l hl => hperm.mem_iff.mp hl

/-- Claim C1, counterexample: the claim that after duplicate ids across batches the
final window contains each id at most once is false.  Feeding the same comment
(id 1) in two successive batches yields a window in which id 1 appears twice: no
deduplication by id happens anywhere in _get_all_comments. -/
theorem C1_counterexample :
    (_get_all_comments none none [[⟨1, "u", "a", 0⟩], [⟨1, "u", "a", 0⟩]]).countP
        (fun c => c.id == 1) = 2 ∧
      ¬ ((_get_all_comments none none [[⟨1, "u", "a", 0⟩], [⟨1, "u", "a", 0⟩]]).countP
          (fun c => c.id == 1) ≤ 1) := by
  decide

/-- Claim C1, amended: _get_all_comments applies no deduplication by id.  Whenever all
qualifying comments fit in the window (at most 25 in total), every id appears in the
final window exactly as often as it appears among the qualifying comments of all
batches together, so an id duplicated across batches appears more than once. -/
theorem C1_amended_no_dedup (min_datetime max_datetime : Option Int)
    (batches : List (List CommentInfo)) (i : Int)
    (hsmall :
      (batches.flatten.filter (matchesFilter min_datetime max_datetime)).length ≤ 25) :
    (_get_all_comments min_datetime max_datetime batches).countP (fun c => c.id == i)
      = (batches.flatten.filter (matchesFilter min_datetime max_datetime)).countP
          (fun c => c.id == i) := by
  rw [get_all_comments_eq,
    List.take_of_length_le (by rw [List.length_insertionSort]; exact hsmall)]
  exact List.Perm.countP_eq _ (List.perm_insertionSort _ _)

/-- Claim C1, witness for the amended theorem at the duplicate-id input. -/
theorem C1_amended_witness :
    (_get_all_comments none none [[⟨1, "u", "a", 0⟩], [⟨1, "u", "a", 0⟩]]).countP
        (fun c => c.id == 1)
      = (([[⟨1, "u", "a", 0⟩], [⟨1, "u", "a", 0⟩]] : List (List CommentInfo)).flatten.filter
          (matchesFilter none none)).countP (fun c => c.id == 1) :=
  C1_amended_no_dedup none none _ 1 (by decide)

/-- Claim C3: the claim is right and the code is wrong.  At positive = neutral =
negative = 0 (an input the score validators deliberately admit), _compute_polarity
propagates the numeric division-by-zero exception; no DegenerateScoreError class exists
in the repository, so the explicitly-required handling is absent. -/
theorem C3_zero_scores_code_bug :
    _compute_polarity 0 0 0 = .error .zeroDivisionError ∧
      _compute_polarity 0 0 0 ≠ .error .degenerateScoreError := by
  constructor
  · norm_num [_compute_polarity]
  · simp [_compute_polarity]

/-- Claim C4, counterexample: the claim that a bad label set fails with MissingLabelError
is false as stated.  At the spec's own scenario input (positive 0.5 and neutral 0.5,
negative missing) validation does fail, but with the ValidationError raised by the
validator; no MissingLabelError class exists in the repository. -/
theorem C4_counterexample :
    _validate_required_labels [[⟨"positive", 1/2⟩, ⟨"neutral", 1/2⟩]]
        = .error .validationError ∧
      _validate_required_labels [[⟨"positive", 1/2⟩, ⟨"neutral", 1/2⟩]]
        ≠ .error .missingLabelError := by
  constructor
  · rfl
  · intro h
    rw [show _validate_required_labels [[⟨"positive", 1/2⟩, ⟨"neutral", 1/2⟩]]
        = .error .validationError from rfl] at h
    simp at h

/-- Claim C4, amended: _validate_required_labels fails (with its ValidationError, the
only failure it has) exactly when some statement's label list is not a permutation of
the three required labels, i.e. not the three labels positive, negative, neutral each
appearing exactly once. -/
theorem C4_amended_validation (outputs : List (List SentimentScore)) :
    _validate_required_labels outputs = .error .validationError
      ↔ ∃ scores ∈ outputs, ¬ (scores.map SentimentScore.label).Perm requiredLabels := by
  have hall : (outputs.all hasRequiredLabels = true)
      ↔ ∀ scores ∈ outputs, (scores.map SentimentScore.label).Perm requiredLabels := by
    rw [List.all_eq_true]
    exact forall₂_congr fun s _ => hasRequiredLabels_iff_perm s
  unfold _validate_required_labels
  by_cases h : outputs.all hasRequiredLabels
  · rw [if_pos h]
    have hal := hall.mp h
    constructor
    · intro habs
      exact absurd habs (by simp)
    · rintro ⟨s, hs, hn⟩
      exact absurd (hal s hs) hn
  · rw [if_neg h]
    have hnot : ¬ ∀ scores ∈ outputs, (scores.map SentimentScore.label).Perm requiredLabels :=
      fun hc => h (hall.mpr hc)
    push_neg at hnot
    exact ⟨fun _ => hnot, fun _ => rfl⟩

/-- Claim C5: partition invariance of the bounded merge.  For a fixed overall sequence
of comments with no duplicate ids, any chunking of that sequence into batches produces
the same final window, entry for entry and in the same order. -/
theorem C5_partition_invariance (min_datetime max_datetime : Option Int)
    (batches₁ batches₂ : List (List CommentInfo))
    (_hnodup : (batches₁.flatten.map CommentInfo.id).Nodup)
    (hflat : batches₁.flatten = batches₂.flatten) :
    _get_all_comments min_datetime max_datetime batches₁
      = _get_all_comments min_datetime max_datetime batches₂ := by
  rw [get_all_comments_eq, get_all_comments_eq, hflat]

/-- Claim C5, witness: one batch of two comments against the same comments split into
two singleton batches. -/
theorem C5_witness :
    _get_all_comments none none [[⟨1, "u", "a", 5⟩, ⟨2, "v", "b", 3⟩]]
      = _get_all_comments none none [[⟨1, "u", "a", 5⟩], [⟨2, "v", "b", 3⟩]] :=
  C5_partition_invariance none none _ _ (by decide) (by rfl)

/-- Claim C7: with all three scores in the unit interval and a positive sum, the
computed polarity is returned (no error), lies in the closed interval from -1 to 1,
attains 1 exactly when negative and neutral vanish with positive nonzero, and attains
-1 exactly when positive and neutral vanish with negative nonzero. -/
theorem C7_polarity_range (p n g : ℚ) (hp0 : 0 ≤ p) (_hp1 : p ≤ 1) (hn0 : 0 ≤ n)
    (_hn1 : n ≤ 1) (hg0 : 0 ≤ g) (_hg1 : g ≤ 1) (hsum : 0 < p + n + g) :
    _compute_polarity p n g = .ok ((p - g) / (p + n + g)) ∧
      -1 ≤ (p - g) / (p + n + g) ∧ (p - g) / (p + n + g) ≤ 1 ∧
      ((p - g) / (p + n + g) = 1 ↔ g = 0 ∧ n = 0 ∧ 0 < p) ∧
      ((p - g) / (p + n + g) = -1 ↔ p = 0 ∧ n = 0 ∧ 0 < g) := by
  have hne : p + n + g ≠ 0 := ne_of_gt hsum
  refine ⟨by simp [_compute_polarity, hne], ?_, ?_, ?_, ?_⟩
  · rw [le_div_iff₀ hsum]
    linarith
  · rw [div_le_one hsum]
    linarith
  · rw [div_eq_iff hne]
    constructor
    · intro h
      refine ⟨by linarith, by linarith, by linarith⟩
    · rintro ⟨h1, h2, _⟩
      rw [h1, h2]
      ring
  · rw [div_eq_iff hne]
    constructor
    · intro h
      refine ⟨by linarith, by linarith, by linarith⟩
    · rintro ⟨h1, h2, _⟩
      rw [h1, h2]
      ring

/-- Claim C7, witness at scores one, zero, zero. -/
theorem C7_witness :
    _compute_polarity 1 0 0 = .ok ((1 - 0) / (1 + 0 + 0)) :=
  (C7_polarity_range 1 0 0 (by norm_num) (by norm_num) (by norm_num) (by norm_num)
    (by norm_num) (by norm_num) (by norm_num)).1

/-- Claim C8: inside the valid range the classification is positive exactly when the
polarity is at least zero (the boundary zero classifies positive) and negative exactly
when it is below zero; outside the range from_polarity fails with InvalidPolarityError
carrying the offending value. -/
theorem C8_classification (polarity : ℚ) :
    ((-1 ≤ polarity ∧ polarity ≤ 1) →
      (Sentiment.from_polarity polarity = .ok .positive ↔ 0 ≤ polarity) ∧
      (Sentiment.from_polarity polarity = .ok .negative ↔ polarity < 0)) ∧
    (¬ (-1 ≤ polarity ∧ polarity ≤ 1) →
      Sentiment.from_polarity polarity = .error (.invalidPolarityError polarity)) := by
  simp only [Sentiment.from_polarity, _POL_TH]
  constructor
  · intro hin
    rw [if_neg (not_not_intro hin)]
    by_cases h0 : (0 : ℚ) ≤ polarity
    · rw [if_pos h0]
      exact ⟨by simp [h0], by simp [not_lt.mpr h0]⟩
    · rw [if_neg h0]
      exact ⟨by simp [h0], by simp [not_le.mp h0]⟩
  · intro hout
    rw [if_pos hout]

/-- Claim C8, witness at the boundary polarity zero and at the out-of-range polarity
two. -/
theorem C8_witness :
    Sentiment.from_polarity 0 = .ok .positive ∧
      Sentiment.from_polarity 2 = .error (.invalidPolarityError 2) :=
  ⟨((C8_classification 0).1 (by norm_num)).1.mpr (by norm_num),
   (C8_classification 2).2 (by norm_num)⟩

/-- Claim C2, counterexample: the claim that a length mismatch between scorer results
and comments fails with a propagated ResponseMismatchError is false.  With two surviving
comments and a scorer returning a single result, the orchestrator returns ok with the
silently truncated single pairing; no error of any kind is raised (no
ResponseMismatchError class exists in the repository). -/
theorem C2_counterexample :
    analyze_comments_sentiment none none false [[⟨1, "u", "a", 2⟩, ⟨2, "v", "b", 1⟩]]
        (fun _ => .ok [⟨"a", 0, .positive⟩])
      = .ok [⟨1, "a", 0, .positive⟩] ∧
    (analyze_comments_sentiment none none false [[⟨1, "u", "a", 2⟩, ⟨2, "v", "b", 1⟩]]
        (fun _ => .ok [⟨"a", 0, .positive⟩])).isOk = true :=
  ⟨rfl, rfl⟩

/-- Claim C2, amended: a length mismatch is silently truncated, never an error.  When
the window is nonempty and the scorer returns ok, the orchestrator returns ok with
exactly min (number of comments) (number of scorer results) entries, the positional
zip of the two lists with strict=False. -/
theorem C2_amended_truncation (min_datetime max_datetime : Option Int)
    (sort_by_polarity : Bool) (batches : List (List CommentInfo))
    (scorer : List String → Except PyErr (List SentimentAnalysisResult))
    (results : List SentimentAnalysisResult)
    (hne : (_get_all_comments min_datetime max_datetime batches).isEmpty = false)
    (hscorer : scorer ((_get_all_comments min_datetime max_datetime batches).map
        CommentInfo.text) = .ok results) :
    ∃ rs, analyze_comments_sentiment min_datetime max_datetime sort_by_polarity batches
          scorer = .ok rs ∧
      rs.length
        = min (_get_all_comments min_datetime max_datetime batches).length
            results.length := by
  simp only [analyze_comments_sentiment, hne, Bool.false_eq_true, if_false, hscorer]
  cases sort_by_polarity
  · exact ⟨_, rfl, by simp⟩
  · exact ⟨_, rfl, by simp [List.length_insertionSort]⟩

/-- Claim C2, witness for the amended theorem at the two-comments one-result input. -/
theorem C2_amended_witness :
    ∃ rs,
      analyze_comments_sentiment none none false [[⟨1, "u", "a", 2⟩, ⟨2, "v", "b", 1⟩]]
          (fun _ => .ok [⟨"a", 0, .positive⟩]) = .ok rs ∧
        rs.length
          = min (_get_all_comments none none [[⟨1, "u", "a", 2⟩, ⟨2, "v", "b", 1⟩]]).length
              [(⟨"a", 0, Sentiment.positive⟩ : SentimentAnalysisResult)].length :=
  C2_amended_truncation none none false _ _ _ (by rfl) (by rfl)

/-- Claim C6: the final window never exceeds 25 entries; when fewer than 25 qualifying
comments exist in total the window length equals exactly that count; and every ok
result list of the orchestrator has at most 25 entries and is accepted by the
no_more_than_25_comments validator. -/
theorem C6_window_bound (min_datetime max_datetime : Option Int)
    (batches : List (List CommentInfo)) :
    (_get_all_comments min_datetime max_datetime batches).length ≤ 25 ∧
      ((batches.flatten.filter (matchesFilter min_datetime max_datetime)).length < 25 →
        (_get_all_comments min_datetime max_datetime batches).length
          = (batches.flatten.filter (matchesFilter min_datetime max_datetime)).length) ∧
      ∀ sort_by_polarity scorer rs,
        analyze_comments_sentiment min_datetime max_datetime sort_by_polarity batches
            scorer = .ok rs →
          rs.length ≤ 25 ∧ no_more_than_25_comments rs = .ok rs := by
  have h1 : (_get_all_comments min_datetime max_datetime batches).length ≤ 25 := by
    rw [get_all_comments_eq]
    exact List.length_take_le _ _
  refine ⟨h1, ?_, ?_⟩
  · intro hlt
    rw [get_all_comments_eq,
      List.take_of_length_le (by rw [List.length_insertionSort]; exact le_of_lt hlt),
      List.length_insertionSort]
  · intro sortP scorer rs hok
    have hlen : rs.length ≤ 25 := by
      by_cases hemp : (_get_all_comments min_datetime max_datetime batches).isEmpty = true
      · simp only [analyze_comments_sentiment, hemp, if_true, Except.ok.injEq] at hok
        simp [← hok]
      · rw [Bool.not_eq_true] at hemp
        cases hs : scorer ((_get_all_comments min_datetime max_datetime batches).map
            CommentInfo.text) with
        | error e =>
          simp only [analyze_comments_sentiment, hemp, Bool.false_eq_true, if_false,
            hs] at hok
          exact absurd hok (by simp)
        | ok ss =>
          simp only [analyze_comments_sentiment, hemp, Bool.false_eq_true, if_false,
            hs, Except.ok.injEq] at hok
          subst hok
          have hz : ((_get_all_comments min_datetime max_datetime batches).zip ss).length
              ≤ 25 := by
            rw [List.length_zip]
            exact le_trans (Nat.min_le_left _ _) h1
          cases sortP
          · simpa using hz
          · simpa [List.length_insertionSort] using hz
    refine ⟨hlen, ?_⟩
    unfold no_more_than_25_comments
    rw [if_neg (by simp only [_MAX_COMMENTS]; omega)]

/-- Claim C6, witness: the exact-count implication at a single-comment input and the
bound on a concrete ok run of the orchestrator. -/
theorem C6_witness :
    (_get_all_comments none none [[⟨1, "u", "a", 5⟩]]).length
        = (([[⟨1, "u", "a", 5⟩]] : List (List CommentInfo)).flatten.filter
            (matchesFilter none none)).length ∧
      [(⟨1, "a", 0, Sentiment.positive⟩ : CommentSentiment)].length ≤ 25 :=
  ⟨(C6_window_bound none none [[⟨1, "u", "a", 5⟩]]).2.1 (by decide),
   ((C6_window_bound none none [[⟨1, "u", "a", 5⟩]]).2.2 false
     (fun _ => .ok [⟨"x", 0, .positive⟩]) [⟨1, "a", 0, .positive⟩] (by rfl)).1⟩

/-- Claim C9: when the source yields zero qualifying comments the orchestrator returns
the empty list, not an error, for every scorer whatsoever (including always-failing
ones), so the scorer is never consulted. -/
theorem C9_empty_comments (min_datetime max_datetime : Option Int)
    (sort_by_polarity : Bool) (batches : List (List CommentInfo))
    (scorer : List String → Except PyErr (List SentimentAnalysisResult))
    (h : batches.flatten.filter (matchesFilter min_datetime max_datetime) = []) :
    analyze_comments_sentiment min_datetime max_datetime sort_by_polarity batches scorer
      = .ok [] := by
  have hw : _get_all_comments min_datetime max_datetime batches = [] := by
    rw [get_all_comments_eq, h]
    rfl
  simp [analyze_comments_sentiment, hw]

/-- Claim C9, witness: one empty batch with a poison scorer that would fail if
invoked. -/
theorem C9_witness :
    analyze_comments_sentiment none none false [[]]
        (fun _ => .error .validationError) = .ok [] :=
  C9_empty_comments none none false [[]] (fun _ => .error .validationError) (by rfl)

/-- Claim C10: when the full search fails, the 404 error is raised and the cache keeps
every (title, id) pair inserted while scanning the fetched batches: the final cache is
the fold of all insertions, and every scanned subfeddit's title still resolves.  The
failure is therefore not atomic with respect to the cache. -/
theorem C10_cache_not_rolled_back (subfeddit_title : String) (cache : TitleCache)
    (infoOk : Int → Bool) (batches : List (List Subfeddit))
    (hmiss : cache subfeddit_title = none)
    (habsent : ∀ sf ∈ batches.flatten, sf.title ≠ subfeddit_title) :
    (get_subfeddit_id subfeddit_title cache infoOk batches).1
        = .error (.httpNotFound subfeddit_title) ∧
      (get_subfeddit_id subfeddit_title cache infoOk batches).2
        = batches.flatten.foldl (fun c sf => cacheSet c sf.title sf.id) cache ∧
      ∀ sf ∈ batches.flatten,
        ((get_subfeddit_id subfeddit_title cache infoOk batches).2 sf.title).isSome := by
  have hrun : get_subfeddit_id subfeddit_title cache infoOk batches
      = (.error (.httpNotFound subfeddit_title),
         batches.flatten.foldl (fun c sf => cacheSet c sf.title sf.id) cache) := by
    unfold get_subfeddit_id
    rw [hmiss]
    exact searchLoop_not_found _ _ _ habsent
  refine ⟨by rw [hrun], by rw [hrun], ?_⟩
  intro sf hsf
  rw [hrun]
  exact foldl_cacheSet_mem_isSome _ _ _ hsf

/-- Claim C10, witness: an empty starting cache, one batch with one non-matching
subfeddit. -/
theorem C10_witness :
    (get_subfeddit_id "missing" (fun _ => none) (fun _ => true)
        [[⟨7, "u", "other", "d"⟩]]).1 = .error (.httpNotFound "missing") ∧
      (get_subfeddit_id "missing" (fun _ => none) (fun _ => true)
          [[⟨7, "u", "other", "d"⟩]]).2
        = ([[⟨7, "u", "other", "d"⟩]] : List (List Subfeddit)).flatten.foldl
            (fun c sf => cacheSet c sf.title sf.id) (fun _ => none) ∧
      ∀ sf ∈ ([[⟨7, "u", "other", "d"⟩]] : List (List Subfeddit)).flatten,
        ((get_subfeddit_id "missing" (fun _ => none) (fun _ => true)
            [[⟨7, "u", "other", "d"⟩]]).2 sf.title).isSome :=
  C10_cache_not_rolled_back "missing" (fun _ => none) (fun _ => true) _ (by rfl)
    (by decide)

end FedditAnalyzer
